import Mathlib

/-!
Verification of the Sia consensus-set database layer
(`modules/consensus/database.go`) and of the block-acceptance behaviour
exercised by `consensus/blocks_test.go`.

The boltdb substrate is modelled shallowly: a database is an association
list from bucket names to buckets, and a bucket is an association list
from keys to values, all over byte strings.  `db.Update` transactions
either fully commit or roll back, matching bolt's ACID contract.
-/

namespace SiaDB

/-- A byte string.  Go byte slices are modelled as lists of naturals. -/
abbrev Bytes := List Nat

/-- Association-list lookup: the first binding of the key wins. -/
def alookup {α β : Type} [DecidableEq α] : List (α × β) → α → Option β
  | [], _ => none
  | (a, b) :: t, k => if a = k then some b else alookup t k

/-- Association-list update: replaces the binding if the key is present,
appends a new binding otherwise (bolt `Put`). -/
def aput {α β : Type} [DecidableEq α] : List (α × β) → α → β → List (α × β)
  | [], k, v => [(k, v)]
  | (a, b) :: t, k, v => if a = k then (k, v) :: t else (a, b) :: aput t k v

/-- Association-list delete: removes every binding of the key (bolt
`Delete`; deleting an absent key is a no-op). -/
def adel {α β : Type} [DecidableEq α] (l : List (α × β)) (k : α) : List (α × β) :=
  l.filter (fun p => decide (p.1 ≠ k))

/-- The keys of an association list, in order. -/
def akeys {α β : Type} (l : List (α × β)) : List α := l.map Prod.fst

@[simp] theorem alookup_nil {α β : Type} [DecidableEq α] (k : α) :
    alookup ([] : List (α × β)) k = none := rfl

@[simp] theorem alookup_cons {α β : Type} [DecidableEq α] (a : α) (b : β)
    (t : List (α × β)) (k : α) :
    alookup ((a, b) :: t) k = if a = k then some b else alookup t k := rfl

theorem alookup_append {α β : Type} [DecidableEq α] (l₁ l₂ : List (α × β)) (k : α) :
    alookup (l₁ ++ l₂) k =
      match alookup l₁ k with
      | some v => some v
      | none => alookup l₂ k := by
  induction l₁ with
  | nil => simp [alookup]
  | cons p t ih =>
    obtain ⟨a, b⟩ := p
    by_cases h : a = k <;> simp [alookup, h, ih]

theorem alookup_aput_self {α β : Type} [DecidableEq α] (l : List (α × β)) (k : α) (v : β) :
    alookup (aput l k v) k = some v := by
  induction l with
  | nil => simp [aput, alookup]
  | cons p t ih =>
    obtain ⟨a, b⟩ := p
    by_cases h : a = k <;> simp [aput, alookup, h, ih]

theorem alookup_aput_ne {α β : Type} [DecidableEq α] (l : List (α × β)) (k k' : α) (v : β)
    (h : k ≠ k') : alookup (aput l k v) k' = alookup l k' := by
  induction l with
  | nil => simp [aput, alookup, h]
  | cons p t ih =>
    obtain ⟨a, b⟩ := p
    by_cases ha : a = k
    · subst ha
      simp [aput, alookup, h, Ne.symm h]
    · by_cases ha' : a = k' <;> simp [aput, alookup, ha, ha', Ne.symm h, ih]

theorem alookup_adel_self {α β : Type} [DecidableEq α] (l : List (α × β)) (k : α) :
    alookup (adel l k) k = none := by
  induction l with
  | nil => rfl
  | cons p t ih =>
    obtain ⟨a, b⟩ := p
    simp only [adel, ne_eq, decide_not, List.filter_cons] at ih ⊢
    by_cases h : a = k <;> simp [h, alookup, ih]

theorem alookup_adel_ne {α β : Type} [DecidableEq α] (l : List (α × β)) (k k' : α)
    (h : k ≠ k') : alookup (adel l k) k' = alookup l k' := by
  induction l with
  | nil => rfl
  | cons p t ih =>
    obtain ⟨a, b⟩ := p
    simp only [adel, ne_eq, decide_not, List.filter_cons] at ih ⊢
    by_cases ha : a = k
    · subst ha
      simp [alookup, h, ih]
    · by_cases ha' : a = k' <;> simp [alookup, ha, ha', Ne.symm h, ih]

/-- A bolt bucket: keys to values. -/
abbrev Bucket := List (Bytes × Bytes)

/-- A bolt database: bucket names to buckets. -/
abbrev DB := List (Bytes × Bucket)

/-- The error values of `database.go`, plus bolt's own bucket errors. -/
inductive DBErr where
  | repeatInsert
  | nilBucket
  | nilItem
  | dbInconsistent
  | nonEmptyBucket
  | bucketExists
  | bucketNotFound
deriving Repr, DecidableEq

def getBucket (db : DB) (name : Bytes) : Option Bucket := alookup db name

def putBucket (db : DB) (name : Bytes) (b : Bucket) : DB := aput db name b

/-- bolt `Tx.CreateBucketIfNotExists`. -/
def createBucketIfNotExists (db : DB) (name : Bytes) : DB :=
  match getBucket db name with
  | some _ => db
  | none => db ++ [(name, [])]

/-- bolt `Tx.CreateBucket`: fails if the bucket exists. -/
def createBucket (db : DB) (name : Bytes) : Except DBErr DB :=
  match getBucket db name with
  | some _ => .error .bucketExists
  | none => .ok (db ++ [(name, [])])

/-- bolt `Tx.DeleteBucket`: fails if the bucket is absent. -/
def deleteBucket (db : DB) (name : Bytes) : Except DBErr DB :=
  match getBucket db name with
  | some _ => .ok (adel db name)
  | none => .error .bucketNotFound

/-- bolt `db.Update`: runs the transaction body; on error the whole
transaction rolls back and the database is unchanged. -/
def update (db : DB) (f : DB → Except DBErr DB) : Option DBErr × DB :=
  match f db with
  | .ok db' => (none, db')
  | .error e => (some e, db)

/-- Little-endian encoding of `n` into `w` bytes. -/
def encLE : Nat → Nat → Bytes
  | 0, _ => []
  | w + 1, n => n % 256 :: encLE w (n / 256)

/-- Little-endian decoding of a byte string. -/
def decLE : Bytes → Nat
  | [] => 0
  | x :: t => x + 256 * decLE t

/-- Modelled from the spec: `encoding.EncUint64` (the `encoding` package is
not under `src/`) — "Integers: little-endian, fixed width", so a `uint64`
becomes its 8 little-endian bytes. -/
def encUint64 (n : Nat) : Bytes := encLE 8 n

/-- Modelled from the spec: `encoding.DecUint64` — the little-endian
decode, inverse of `encUint64`. -/
def decUint64 (b : Bytes) : Nat := decLE b

theorem mod_mul_decomp (n a b : Nat) :
    n % (a * b) = n % a + a * (n / a % b) := by
  conv_lhs => rw [← Nat.div_add_mod (n % (a * b)) a]
  rw [Nat.mod_mul_right_div_self, Nat.mod_mod_of_dvd _ (dvd_mul_right a b)]
  exact Nat.add_comm _ _

theorem decLE_encLE (w n : Nat) : decLE (encLE w n) = n % 256 ^ w := by
  induction w generalizing n with
  | zero => simp [encLE, decLE, Nat.mod_one]
  | succ w ih =>
    have h256 : (256 : Nat) ^ (w + 1) = 256 * 256 ^ w := by ring
    rw [encLE, decLE, ih, h256, mod_mul_decomp]

theorem decUint64_encUint64 (n : Nat) : decUint64 (encUint64 n) = n % 2 ^ 64 := by
  have : (256 : Nat) ^ 8 = 2 ^ 64 := by norm_num
  rw [encUint64, decUint64, decLE_encLE, this]

theorem encUint64_injOn {i j : Nat} (hi : i < 2 ^ 64) (hj : j < 2 ^ 64)
    (h : encUint64 i = encUint64 j) : i = j := by
  have := congrArg decUint64 h
  rwa [decUint64_encUint64, decUint64_encUint64, Nat.mod_eq_of_lt hi,
    Nat.mod_eq_of_lt hj] at this

/-- ASCII bytes of a string, for the literal bucket and key names. -/
def strBytes (s : String) : Bytes := s.toList.map Char.toNat

def ConsistencyGuard : Bytes := strBytes "ConsistencyGuard"
def GuardStart : Bytes := strBytes "GuardStart"
def GuardEnd : Bytes := strBytes "GuardEnd"

def BlockPath : Bytes := strBytes "BlockPath"
def BlockMap : Bytes := strBytes "BlockMap"
def SiacoinOutputs : Bytes := strBytes "SiacoinOutputs"
def FileContracts : Bytes := strBytes "FileContracts"
def FileContractExpirations : Bytes := strBytes "FileContractExpirations"
def SiafundOutputs : Bytes := strBytes "SiafundOutputs"
def SiafundPool : Bytes := strBytes "SiafundPool"
def DSCOBuckets : Bytes := strBytes "DSCOBuckets"

/-- The bucket list enumerated at the top of `openDB`. -/
def consensusBuckets : List Bytes :=
  [BlockPath, BlockMap, SiacoinOutputs, FileContracts, FileContractExpirations,
   SiafundOutputs, SiafundPool, DSCOBuckets]

/-- `openDB` (`database.go:53-99`), modulo `persist.OpenDatabase` which
only opens the file and checks the metadata header.  Creates the schema
buckets, then checks the consistency guard: the database is consistent if
`GuardStart` and `GuardEnd` are both nil or both present and byte-equal;
on consistency both are overwritten with `EncUint64(1)`, otherwise the
transaction fails with `errDBInconsistent` and rolls back. -/
def openDB (db : DB) : Option DBErr × DB :=
  update db (fun db0 =>
    let db1 := consensusBuckets.foldl createBucketIfNotExists db0
    let db2 := createBucketIfNotExists db1 ConsistencyGuard
    let cg := (getBucket db2 ConsistencyGuard).getD []
    let gs := alookup cg GuardStart
    let ge := alookup cg GuardEnd
    if (gs ≠ none ∧ ge ≠ none ∧ gs = ge) ∨ (gs = none ∧ ge = none) then
      .ok (putBucket db2 ConsistencyGuard
            (aput (aput cg GuardStart (encUint64 1)) GuardEnd (encUint64 1)))
    else
      .error .dbInconsistent)

theorem getBucket_createBucketIfNotExists_ne (db : DB) (n m : Bytes) (h : n ≠ m) :
    getBucket (createBucketIfNotExists db n) m = getBucket db m := by
  unfold createBucketIfNotExists
  cases hb : getBucket db n with
  | some b => rfl
  | none =>
    show getBucket (db ++ [(n, [])]) m = getBucket db m
    unfold getBucket
    rw [alookup_append]
    cases alookup db m <;> simp [alookup, h]

theorem getBucket_createBucketIfNotExists_self (db : DB) (n : Bytes) :
    getBucket (createBucketIfNotExists db n) n = some ((getBucket db n).getD []) := by
  unfold createBucketIfNotExists
  cases hb : getBucket db n with
  | some b => simpa using hb
  | none =>
    show getBucket (db ++ [(n, [])]) n = some ((none : Option Bucket).getD [])
    unfold getBucket at hb ⊢
    rw [alookup_append, hb]
    simp [alookup]

theorem getBucket_foldl_create_ne (l : List Bytes) (db : DB) (m : Bytes)
    (h : ∀ n ∈ l, n ≠ m) :
    getBucket (l.foldl createBucketIfNotExists db) m = getBucket db m := by
  induction l generalizing db with
  | nil => rfl
  | cons n t ih =>
    simp only [List.foldl_cons]
    rw [ih _ (fun x hx => h x (List.mem_cons_of_mem _ hx)),
      getBucket_createBucketIfNotExists_ne db n m (h n (List.mem_cons_self _ _))]

/-- The guard value persisted under `key` in the `ConsistencyGuard` bucket
of the store file (absent bucket reads as empty). -/
def persistedGuard (db : DB) (key : Bytes) : Option Bytes :=
  alookup ((getBucket db ConsistencyGuard).getD []) key

theorem guardCond_iff (gs ge : Option Bytes) :
    ((gs ≠ none ∧ ge ≠ none ∧ gs = ge) ∨ (gs = none ∧ ge = none)) ↔ gs = ge := by
  cases gs <;> cases ge <;> simp

theorem getBucket_openDB_cg (db : DB) :
    getBucket
      (createBucketIfNotExists (consensusBuckets.foldl createBucketIfNotExists db)
        ConsistencyGuard) ConsistencyGuard
      = some ((getBucket db ConsistencyGuard).getD []) := by
  rw [getBucket_createBucketIfNotExists_self, getBucket_foldl_create_ne]
  intro n hn
  fin_cases hn <;> decide

/-- Closed-form evaluation of `openDB`: success rewrites both guards to
`EncUint64(1)`, failure rolls the transaction back. -/
theorem openDB_eq (db : DB) :
    openDB db =
      if persistedGuard db GuardStart = persistedGuard db GuardEnd then
        (none,
         putBucket
           (createBucketIfNotExists (consensusBuckets.foldl createBucketIfNotExists db)
             ConsistencyGuard)
           ConsistencyGuard
           (aput (aput ((getBucket db ConsistencyGuard).getD []) GuardStart (encUint64 1))
             GuardEnd (encUint64 1)))
      else (some DBErr.dbInconsistent, db) := by
  have hgs : alookup ((getBucket db ConsistencyGuard).getD []) GuardStart
      = persistedGuard db GuardStart := rfl
  have hge : alookup ((getBucket db ConsistencyGuard).getD []) GuardEnd
      = persistedGuard db GuardEnd := rfl
  unfold openDB update
  simp only [getBucket_openDB_cg db, Option.getD_some, hgs, hge]
  by_cases h : persistedGuard db GuardStart = persistedGuard db GuardEnd
  · rw [if_pos ((guardCond_iff _ _).mpr h), if_pos h]
  · rw [if_neg (fun hc => h ((guardCond_iff _ _).mp hc)), if_neg h]

/-- C1: `openDB` succeeds exactly when the persisted `GuardStart` and
`GuardEnd` are both absent or byte-equal, and fails with the
database-inconsistent error whenever they differ (including when exactly
one of the two is present); on the failing path the transaction rolls
back and only the error is produced. -/
theorem openDB_guard_check (db : DB) :
    (openDB db).1 =
      if persistedGuard db GuardStart = persistedGuard db GuardEnd then none
      else some DBErr.dbInconsistent := by
  rw [openDB_eq]
  by_cases h : persistedGuard db GuardStart = persistedGuard db GuardEnd <;> simp [h]

/-- C10: whenever the guard counters are consistent, a successful open
overwrites both `GuardStart` and `GuardEnd` with the encoding of 1,
discarding their previous values. -/
theorem openDB_resets_guards (db : DB)
    (h : persistedGuard db GuardStart = persistedGuard db GuardEnd) :
    (openDB db).1 = none ∧
    persistedGuard (openDB db).2 GuardStart = some (encUint64 1) ∧
    persistedGuard (openDB db).2 GuardEnd = some (encUint64 1) := by
  have hne : GuardStart ≠ GuardEnd := by decide
  rw [openDB_eq, if_pos h]
  refine ⟨rfl, ?_, ?_⟩ <;>
  · unfold persistedGuard getBucket putBucket
    rw [alookup_aput_self]
    simp [alookup_aput_self, alookup_aput_ne _ _ _ _ hne,
      alookup_aput_ne _ _ _ _ (Ne.symm hne)]

/-- Witness for `openDB_resets_guards` at the empty store file. -/
theorem openDB_resets_guards_witness :
    (openDB []).1 = none ∧
    persistedGuard (openDB []).2 GuardStart = some (encUint64 1) ∧
    persistedGuard (openDB []).2 GuardEnd = some (encUint64 1) :=
  openDB_resets_guards [] rfl

/-- `startConsistencyGuard` (`database.go:108-119`).  Fails with
`errDBInconsistent` when `GuardStart` and `GuardEnd` differ (Go
`bytes.Equal`, which treats nil as empty), otherwise stores
`EncUint64(DecUint64(GuardStart) + 1)` under `GuardStart`.  A missing
`ConsistencyGuard` bucket would be a nil dereference in Go; it is
unreachable after `openDB`. -/
def startConsistencyGuard (db : DB) : Option DBErr × DB :=
  update db (fun d =>
    match getBucket d ConsistencyGuard with
    | none => .error .nilBucket
    | some cg =>
      let gs := alookup cg GuardStart
      if gs.getD [] ≠ (alookup cg GuardEnd).getD [] then .error .dbInconsistent
      else .ok (putBucket d ConsistencyGuard
        (aput cg GuardStart (encUint64 (decUint64 (gs.getD []) + 1)))))

/-- `stopConsistencyGuard` (`database.go:126-135`): stores
`EncUint64(DecUint64(GuardEnd) + 1)` under `GuardEnd`. -/
def stopConsistencyGuard (db : DB) : Option DBErr × DB :=
  update db (fun d =>
    match getBucket d ConsistencyGuard with
    | none => .error .nilBucket
    | some cg =>
      .ok (putBucket d ConsistencyGuard
        (aput cg GuardEnd (encUint64 (decUint64 ((alookup cg GuardEnd).getD []) + 1)))))

theorem encUint64_succ_ne (n : Nat) : encUint64 (n % 2 ^ 64 + 1) ≠ encUint64 n := by
  intro h
  have hd := congrArg decUint64 h
  rw [decUint64_encUint64, decUint64_encUint64] at hd
  have hm : n % 2 ^ 64 < 2 ^ 64 := Nat.mod_lt _ (by norm_num)
  by_cases hc : n % 2 ^ 64 + 1 < 2 ^ 64
  · rw [Nat.mod_eq_of_lt hc] at hd
    omega
  · have he : n % 2 ^ 64 + 1 = 2 ^ 64 := by omega
    rw [he, Nat.mod_self] at hd
    omega

theorem startConsistencyGuard_eval (db : DB) (cg : Bucket)
    (hcg : getBucket db ConsistencyGuard = some cg) (gs ge : Bytes)
    (hgs : alookup cg GuardStart = some gs) (hge : alookup cg GuardEnd = some ge) :
    startConsistencyGuard db =
      if gs ≠ ge then (some DBErr.dbInconsistent, db)
      else (none, putBucket db ConsistencyGuard
        (aput cg GuardStart (encUint64 (decUint64 gs + 1)))) := by
  unfold startConsistencyGuard update
  simp only [hcg, hgs, hge, Option.getD_some]
  by_cases h : gs = ge
  · rw [if_neg (by simp [h]), if_neg (by simp [h])]
  · rw [if_pos h, if_pos h]

theorem stopConsistencyGuard_eval (db : DB) (cg : Bucket)
    (hcg : getBucket db ConsistencyGuard = some cg) (ge : Bytes)
    (hge : alookup cg GuardEnd = some ge) :
    stopConsistencyGuard db =
      (none, putBucket db ConsistencyGuard
        (aput cg GuardEnd (encUint64 (decUint64 ge + 1)))) := by
  unfold stopConsistencyGuard update
  simp only [hcg, hge, Option.getD_some]

/-- C2: with both guard counters persisted, `startConsistencyGuard` fails
with the database-inconsistent error and leaves the store unchanged when
`GuardStart ≠ GuardEnd`, and otherwise increments `GuardStart` by one
(modulo 2^64); a subsequent `stopConsistencyGuard` increments `GuardEnd`
by one, restoring `GuardStart = GuardEnd`, while between the two calls
the counters differ. -/
theorem consistencyGuard_protocol :
    (∀ (db : DB) (cg : Bucket) (s e : Bytes),
        getBucket db ConsistencyGuard = some cg →
        alookup cg GuardStart = some s → alookup cg GuardEnd = some e →
        s ≠ e → startConsistencyGuard db = (some DBErr.dbInconsistent, db)) ∧
    (∀ (db : DB) (cg : Bucket) (n : Nat),
        getBucket db ConsistencyGuard = some cg →
        alookup cg GuardStart = some (encUint64 n) →
        alookup cg GuardEnd = some (encUint64 n) →
        (startConsistencyGuard db).1 = none ∧
        persistedGuard (startConsistencyGuard db).2 GuardStart
          = some (encUint64 (n % 2 ^ 64 + 1)) ∧
        persistedGuard (startConsistencyGuard db).2 GuardEnd = some (encUint64 n) ∧
        persistedGuard (startConsistencyGuard db).2 GuardStart
          ≠ persistedGuard (startConsistencyGuard db).2 GuardEnd ∧
        (stopConsistencyGuard (startConsistencyGuard db).2).1 = none ∧
        persistedGuard (stopConsistencyGuard (startConsistencyGuard db).2).2 GuardStart
          = some (encUint64 (n % 2 ^ 64 + 1)) ∧
        persistedGuard (stopConsistencyGuard (startConsistencyGuard db).2).2 GuardEnd
          = some (encUint64 (n % 2 ^ 64 + 1))) := by
  have hne : GuardStart ≠ GuardEnd := by decide
  constructor
  · intro db cg s e hcg hgs hge hsne
    rw [startConsistencyGuard_eval db cg hcg s e hgs hge, if_pos hsne]
  · intro db cg n hcg hgs hge
    have h1 := startConsistencyGuard_eval db cg hcg _ _ hgs hge
    rw [if_neg (by simp), decUint64_encUint64] at h1
    have hcg1 : getBucket (putBucket db ConsistencyGuard
        (aput cg GuardStart (encUint64 (n % 2 ^ 64 + 1)))) ConsistencyGuard
        = some (aput cg GuardStart (encUint64 (n % 2 ^ 64 + 1))) :=
      alookup_aput_self db ConsistencyGuard _
    have hgs1 : alookup (aput cg GuardStart (encUint64 (n % 2 ^ 64 + 1))) GuardStart
        = some (encUint64 (n % 2 ^ 64 + 1)) := alookup_aput_self cg GuardStart _
    have hge1 : alookup (aput cg GuardStart (encUint64 (n % 2 ^ 64 + 1))) GuardEnd
        = some (encUint64 n) := by rw [alookup_aput_ne _ _ _ _ hne, hge]
    have h2 := stopConsistencyGuard_eval _ _ hcg1 _ hge1
    rw [decUint64_encUint64] at h2
    have hcg2 : getBucket (putBucket
          (putBucket db ConsistencyGuard (aput cg GuardStart (encUint64 (n % 2 ^ 64 + 1))))
          ConsistencyGuard
          (aput (aput cg GuardStart (encUint64 (n % 2 ^ 64 + 1))) GuardEnd
            (encUint64 (n % 2 ^ 64 + 1)))) ConsistencyGuard
        = some (aput (aput cg GuardStart (encUint64 (n % 2 ^ 64 + 1))) GuardEnd
            (encUint64 (n % 2 ^ 64 + 1))) := alookup_aput_self _ ConsistencyGuard _
    refine ⟨by rw [h1], ?_, ?_, ?_, by rw [h1, h2], ?_, ?_⟩
    · rw [h1]
      simp only [persistedGuard, hcg1, Option.getD_some, hgs1]
    · rw [h1]
      simp only [persistedGuard, hcg1, Option.getD_some, hge1]
    · rw [h1]
      simp only [persistedGuard, hcg1, Option.getD_some, hgs1, hge1]
      intro hcontra
      exact encUint64_succ_ne n (Option.some.inj hcontra)
    · rw [h1, h2]
      simp only [persistedGuard, hcg2, Option.getD_some]
      rw [alookup_aput_ne _ _ _ _ (Ne.symm hne), hgs1]
    · rw [h1, h2]
      simp only [persistedGuard, hcg2, Option.getD_some]
      rw [alookup_aput_self]

/-- Witness for `consistencyGuard_protocol` at concrete stores: mismatched
guards are rejected, matched guards let a start/stop pair through. -/
theorem consistencyGuard_protocol_witness :
    startConsistencyGuard
        [(ConsistencyGuard, [(GuardStart, encUint64 1), (GuardEnd, encUint64 2)])]
      = (some DBErr.dbInconsistent,
         [(ConsistencyGuard, [(GuardStart, encUint64 1), (GuardEnd, encUint64 2)])]) ∧
    (startConsistencyGuard
        [(ConsistencyGuard, [(GuardStart, encUint64 5), (GuardEnd, encUint64 5)])]).1
      = none :=
  ⟨consistencyGuard_protocol.1
      [(ConsistencyGuard, [(GuardStart, encUint64 1), (GuardEnd, encUint64 2)])]
      [(GuardStart, encUint64 1), (GuardEnd, encUint64 2)]
      (encUint64 1) (encUint64 2) (by decide) (by decide) (by decide) (by decide),
   (consistencyGuard_protocol.2
      [(ConsistencyGuard, [(GuardStart, encUint64 5), (GuardEnd, encUint64 5)])]
      [(GuardStart, encUint64 5), (GuardEnd, encUint64 5)]
      5 (by decide) (by decide) (by decide)).1⟩

/-- `pushPath` (`database.go:191-197`, and the deprecated method at
273-284): stores the block id under the key `EncUint64(KeyN)`, the
current number of entries of the `BlockPath` bucket.  Modelled directly
on the bucket; `tx.Bucket(BlockPath)` is the projection to it. -/
def pushPath (b : Bucket) (bid : Bytes) : Bucket :=
  aput b (encUint64 b.length) bid

/-- `popPath` (`database.go:286-294`): deletes the key
`EncUint64(uint64(KeyN - 1))`.  The Go `uint64` conversion wraps, so on
an empty bucket the key is `2^64 - 1` and the delete is a no-op. -/
def popPath (b : Bucket) : Bucket :=
  adel b (encUint64 ((b.length + (2 ^ 64 - 1)) % 2 ^ 64))

/-- The `BlockPath` invariant: distinct keys which are exactly the
encoded heights `0 .. KeyN - 1`. -/
def contiguousPath (b : Bucket) : Prop :=
  (akeys b).Nodup ∧ ∀ k, k ∈ akeys b ↔ ∃ i, i < b.length ∧ k = encUint64 i

theorem alookup_eq_none_iff {α β : Type} [DecidableEq α] (l : List (α × β)) (k : α) :
    alookup l k = none ↔ k ∉ akeys l := by
  induction l with
  | nil => simp [akeys]
  | cons p t ih =>
    obtain ⟨a, b⟩ := p
    by_cases h : a = k
    · simp [alookup, akeys, h]
    · simp [alookup, akeys, h, Ne.symm h, ih]

theorem aput_of_not_mem {α β : Type} [DecidableEq α] (l : List (α × β)) (k : α) (v : β)
    (h : k ∉ akeys l) : aput l k v = l ++ [(k, v)] := by
  induction l with
  | nil => rfl
  | cons p t ih =>
    obtain ⟨a, b⟩ := p
    have ha : a ≠ k := fun hh =>
      h (List.mem_cons.mpr (Or.inl hh.symm))
    have ht : k ∉ akeys t := fun hh =>
      h (List.mem_cons.mpr (Or.inr hh))
    simp [aput, ha, ih ht]

theorem adel_of_not_mem {α β : Type} [DecidableEq α] (l : List (α × β)) (k : α)
    (h : k ∉ akeys l) : adel l k = l := by
  induction l with
  | nil => rfl
  | cons p t ih =>
    obtain ⟨a, b⟩ := p
    have ha : a ≠ k := fun hh =>
      h (List.mem_cons.mpr (Or.inl hh.symm))
    have ht : k ∉ akeys t := fun hh =>
      h (List.mem_cons.mpr (Or.inr hh))
    simp only [adel, ne_eq, decide_not, List.filter_cons]
    rw [if_pos (by simp [ha])]
    have hT := ih ht
    simp only [adel, ne_eq, decide_not] at hT
    rw [hT]

theorem mem_akeys_adel {α β : Type} [DecidableEq α] (l : List (α × β)) (k k' : α) :
    k' ∈ akeys (adel l k) ↔ k' ∈ akeys l ∧ k' ≠ k := by
  induction l with
  | nil => simp [adel, akeys]
  | cons p t ih =>
    obtain ⟨a, b⟩ := p
    simp only [adel, ne_eq, decide_not, List.filter_cons, akeys, List.map_cons,
      List.mem_cons] at ih ⊢
    by_cases h : a = k
    · rw [if_neg (by simp [h]), ih, h]
      constructor
      · exact fun hh => ⟨Or.inr hh.1, hh.2⟩
      · rintro ⟨hm | hm, hne⟩
        · exact absurd hm hne
        · exact ⟨hm, hne⟩
    · rw [if_pos (by simp [h])]
      simp only [List.map_cons, List.mem_cons]
      rw [ih]
      constructor
      · rintro (rfl | ⟨hm, hne⟩)
        · exact ⟨Or.inl rfl, h⟩
        · exact ⟨Or.inr hm, hne⟩
      · rintro ⟨hm | hm, hne⟩
        · exact Or.inl hm
        · exact Or.inr ⟨hm, hne⟩

theorem nodup_akeys_adel {α β : Type} [DecidableEq α] (l : List (α × β)) (k : α)
    (h : (akeys l).Nodup) : (akeys (adel l k)).Nodup :=
  List.Nodup.sublist (List.Sublist.map Prod.fst (List.filter_sublist l)) h

theorem length_adel_of_mem {α β : Type} [DecidableEq α] (l : List (α × β)) (k : α)
    (hnd : (akeys l).Nodup) (hm : k ∈ akeys l) :
    (adel l k).length + 1 = l.length := by
  induction l with
  | nil => simp [akeys] at hm
  | cons p t ih =>
    obtain ⟨a, b⟩ := p
    simp only [akeys, List.map_cons, List.nodup_cons] at hnd
    simp only [akeys, List.map_cons, List.mem_cons] at hm
    simp only [adel, ne_eq, decide_not, List.filter_cons]
    by_cases h : a = k
    · rw [if_neg (by simp [h])]
      have ht : k ∉ akeys t := by
        rw [← h]
        simpa [akeys] using hnd.1
      have hT : adel t k = t := adel_of_not_mem t k ht
      simp only [adel, ne_eq, decide_not] at hT
      rw [hT]
      simp
    · rw [if_pos (by simp [h])]
      have hm' : k ∈ akeys t := by
        rcases hm with hm1 | hm1
        · exact absurd hm1.symm h
        · exact hm1
      have hL := ih hnd.2 hm'
      simp only [adel, ne_eq, decide_not] at hL
      simp only [List.length_cons]
      omega

theorem pushPath_spec (b : Bucket) (bid : Bytes)
    (h : contiguousPath b) (hlt : b.length < 2 ^ 64) :
    alookup (pushPath b bid) (encUint64 b.length) = some bid ∧
    (pushPath b bid).length = b.length + 1 ∧
    contiguousPath (pushPath b bid) := by
  obtain ⟨hnd, hmem⟩ := h
  have hfresh : encUint64 b.length ∉ akeys b := by
    intro hc
    obtain ⟨i, hi, hk⟩ := (hmem _).mp hc
    have := encUint64_injOn hlt (lt_trans hi hlt) hk
    omega
  have hput : pushPath b bid = b ++ [(encUint64 b.length, bid)] :=
    aput_of_not_mem b _ bid hfresh
  have hlen : (pushPath b bid).length = b.length + 1 := by
    rw [hput]
    simp
  refine ⟨alookup_aput_self b _ bid, hlen, ?_, ?_⟩
  · rw [hput, akeys, List.map_append, List.nodup_append]
    refine ⟨hnd, List.nodup_singleton _, ?_⟩
    intro x hx hx'
    simp only [List.map_cons, List.map_nil, List.mem_singleton] at hx'
    exact hfresh (hx' ▸ hx)
  · intro k
    rw [hlen, hput, akeys, List.map_append]
    simp only [List.mem_append, List.map_cons, List.map_nil, List.mem_singleton]
    constructor
    · rintro (hk | rfl)
      · obtain ⟨i, hi, rfl⟩ := (hmem _).mp hk
        exact ⟨i, by omega, rfl⟩
      · exact ⟨b.length, by omega, rfl⟩
    · rintro ⟨i, hi, rfl⟩
      by_cases hib : i < b.length
      · exact Or.inl ((hmem _).mpr ⟨i, hib, rfl⟩)
      · have : i = b.length := by omega
        exact Or.inr (by rw [this])

theorem popPath_spec (b : Bucket)
    (h : contiguousPath b) (hpos : 0 < b.length) (hle : b.length ≤ 2 ^ 64) :
    alookup (popPath b) (encUint64 (b.length - 1)) = none ∧
    (popPath b).length + 1 = b.length ∧
    contiguousPath (popPath b) := by
  obtain ⟨hnd, hmem⟩ := h
  have hkey : (b.length + (2 ^ 64 - 1)) % 2 ^ 64 = b.length - 1 := by
    have h1 : b.length + (2 ^ 64 - 1) = (b.length - 1) + 1 * 2 ^ 64 := by omega
    rw [h1, Nat.add_mul_mod_self_right, Nat.mod_eq_of_lt (by omega)]
  have hdel : popPath b = adel b (encUint64 (b.length - 1)) := by
    rw [popPath, hkey]
  have hmem1 : encUint64 (b.length - 1) ∈ akeys b :=
    (hmem _).mpr ⟨b.length - 1, by omega, rfl⟩
  have hlen : (popPath b).length + 1 = b.length := by
    rw [hdel]
    exact length_adel_of_mem b _ hnd hmem1
  refine ⟨by rw [hdel]; exact alookup_adel_self b _, hlen, ?_, ?_⟩
  · rw [hdel]
    exact nodup_akeys_adel b _ hnd
  · intro k
    rw [hdel, mem_akeys_adel]
    have hlen' : (adel b (encUint64 (b.length - 1))).length = b.length - 1 := by
      have := hlen
      rw [hdel] at this
      omega
    rw [hlen']
    constructor
    · rintro ⟨hk, hne⟩
      obtain ⟨i, hi, rfl⟩ := (hmem _).mp hk
      refine ⟨i, ?_, rfl⟩
      by_cases hc : i < b.length - 1
      · exact hc
      · exfalso
        have hieq : i = b.length - 1 := by omega
        exact hne (by rw [hieq])
    · rintro ⟨i, hi, rfl⟩
      refine ⟨(hmem _).mpr ⟨i, by omega, rfl⟩, fun hc => ?_⟩
      have := encUint64_injOn (by omega) (by omega) hc
      omega

/-- A `BlockPath` operation: `pushPath` with some block id, or `popPath`. -/
inductive PathOp where
  | push (bid : Bytes)
  | pop

/-- Run a sequence of push/pop operations against the `BlockPath` bucket. -/
def applyPathOps (b : Bucket) : List PathOp → Bucket
  | [] => b
  | PathOp.push bid :: t => applyPathOps (pushPath b bid) t
  | PathOp.pop :: t => applyPathOps (popPath b) t

theorem applyPathOps_contiguous (ops : List PathOp) (b : Bucket)
    (h : contiguousPath b) (hlen : b.length + ops.length ≤ 2 ^ 64) :
    contiguousPath (applyPathOps b ops) := by
  induction ops generalizing b with
  | nil => exact h
  | cons op t ih =>
    cases op with
    | push bid =>
      have hlt : b.length < 2 ^ 64 := by
        simp only [List.length_cons] at hlen
        omega
      obtain ⟨-, hlen', hc⟩ := pushPath_spec b bid h hlt
      exact ih (pushPath b bid) hc (by
        rw [hlen']
        simp only [List.length_cons] at hlen
        omega)
    | pop =>
      by_cases hz : b.length = 0
      · have hb : popPath b = b := by
          rw [List.length_eq_zero.mp hz]
          rfl
        show contiguousPath (applyPathOps (popPath b) t)
        rw [hb]
        exact ih b h (by
          simp only [List.length_cons] at hlen
          omega)
      · obtain ⟨-, hlen', hc⟩ := popPath_spec b h (Nat.pos_of_ne_zero hz) (by
          simp only [List.length_cons] at hlen
          omega)
        show contiguousPath (applyPathOps (popPath b) t)
        exact ih (popPath b) hc (by
          simp only [List.length_cons] at hlen
          omega)

/-- C3: on a gap-free `BlockPath` whose keys are exactly the encoded
heights `0 .. n-1`, `pushPath` inserts the new block id at key `n` (the
current number of entries) and `popPath` deletes the entry at key `n-1`;
every sequence of push/pop operations from a contiguous path keeps the
bucket a gap-free prefix of heights, its length the tip height plus
one. -/
theorem blockPath_contiguous_invariant :
    (∀ (b : Bucket) (bid : Bytes), contiguousPath b → b.length < 2 ^ 64 →
      alookup (pushPath b bid) (encUint64 b.length) = some bid ∧
      (pushPath b bid).length = b.length + 1 ∧ contiguousPath (pushPath b bid)) ∧
    (∀ b : Bucket, contiguousPath b → 0 < b.length → b.length ≤ 2 ^ 64 →
      alookup (popPath b) (encUint64 (b.length - 1)) = none ∧
      (popPath b).length + 1 = b.length ∧ contiguousPath (popPath b)) ∧
    (∀ (ops : List PathOp) (b : Bucket), contiguousPath b →
      b.length + ops.length ≤ 2 ^ 64 → contiguousPath (applyPathOps b ops)) :=
  ⟨pushPath_spec, popPath_spec, applyPathOps_contiguous⟩

theorem contiguousPath_nil : contiguousPath ([] : Bucket) :=
  ⟨List.nodup_nil, fun k => by simp [akeys]⟩

/-- Witness for `blockPath_contiguous_invariant` on concrete paths. -/
theorem blockPath_contiguous_invariant_witness :
    alookup (pushPath [] [7]) (encUint64 0) = some [7] ∧
    contiguousPath (applyPathOps [] [PathOp.push [7], PathOp.pop]) :=
  ⟨(blockPath_contiguous_invariant.1 [] [7] contiguousPath_nil (by norm_num)).1,
   blockPath_contiguous_invariant.2.2 [PathOp.push [7], PathOp.pop] []
     contiguousPath_nil (by norm_num)⟩

/-- Modelled from the spec: the `build` package is not under `src/`; its
`DEBUG` flag gates the sanity checks.  The spec treats those checks as
active ("duplicate-insert is a programmer error"), the development
default, so the model fixes `DEBUG = true`. -/
def build_DEBUG : Bool := true

/-- Outcome of a mutating store operation.  A Go `panic` aborts the
process; the carried database is the committed on-disk state at that
point (a failed transaction has already rolled back). -/
inductive MutRes where
  | ok (db : DB)
  | errored (e : DBErr) (db : DB)
  | panicked (e : DBErr) (db : DB)
deriving Repr, DecidableEq

/-- Outcome of a read-only lookup. -/
inductive GetRes where
  | ok (v : Bytes)
  | errored (e : DBErr)
  | panicked (e : DBErr)
deriving Repr, DecidableEq

/-- `insertItem` (`database.go:137-150`).  Key and value arrive already
`encoding.Marshal`-encoded.  A missing bucket panics (debug check, or the
nil dereference at `b.Get`); in debug mode a duplicate insert panics with
`errRepeatInsert`; otherwise `Put` stores the value. -/
def insertItem (db : DB) (bucket k v : Bytes) : MutRes :=
  match getBucket db bucket with
  | none => .panicked .nilBucket db
  | some b =>
    if build_DEBUG && (alookup b k).isSome then .panicked .repeatInsert db
    else .ok (putBucket db bucket (aput b k v))

/-- `addSiacoinOutput` (`database.go:526-532`): the same duplicate check
against the raw `id[:]` key, then `Put` of the encoded output. -/
def addSiacoinOutput (db : DB) (id sco : Bytes) : MutRes :=
  match getBucket db SiacoinOutputs with
  | none => .panicked .nilBucket db
  | some b =>
    if build_DEBUG && (alookup b id).isSome then .panicked .repeatInsert db
    else .ok (putBucket db SiacoinOutputs (aput b id sco))

/-- C7: inserting under a key already present in the bucket fails (debug
panic with `errRepeatInsert`, store unchanged) rather than overwriting,
and inserting under an absent key stores the encoded value under the
encoded key; `addSiacoinOutput` behaves identically. -/
theorem insertItem_duplicate_check :
    (∀ (db : DB) (bucket k v : Bytes) (b : Bucket),
        getBucket db bucket = some b →
        (∀ w, alookup b k = some w →
          insertItem db bucket k v = .panicked .repeatInsert db) ∧
        (alookup b k = none →
          insertItem db bucket k v = .ok (putBucket db bucket (aput b k v)) ∧
          getBucket (putBucket db bucket (aput b k v)) bucket = some (aput b k v) ∧
          alookup (aput b k v) k = some v)) ∧
    (∀ (db : DB) (id sco : Bytes) (b : Bucket),
        getBucket db SiacoinOutputs = some b →
        (∀ w, alookup b id = some w →
          addSiacoinOutput db id sco = .panicked .repeatInsert db) ∧
        (alookup b id = none →
          addSiacoinOutput db id sco
            = .ok (putBucket db SiacoinOutputs (aput b id sco)) ∧
          alookup (aput b id sco) id = some sco)) := by
  constructor
  · intro db bucket k v b hb
    constructor
    · intro w hw
      unfold insertItem
      simp [hb, hw, build_DEBUG]
    · intro hnone
      refine ⟨?_, alookup_aput_self db bucket _, alookup_aput_self b k v⟩
      unfold insertItem
      simp [hb, hnone, build_DEBUG]
  · intro db id sco b hb
    constructor
    · intro w hw
      unfold addSiacoinOutput
      simp [hb, hw, build_DEBUG]
    · intro hnone
      refine ⟨?_, alookup_aput_self b id sco⟩
      unfold addSiacoinOutput
      simp [hb, hnone, build_DEBUG]

/-- Witness for `insertItem_duplicate_check` on a concrete store. -/
theorem insertItem_duplicate_check_witness :
    insertItem [(BlockMap, [([1], [2])])] BlockMap [1] [3]
      = .panicked .repeatInsert [(BlockMap, [([1], [2])])] ∧
    addSiacoinOutput [(SiacoinOutputs, [])] [4] [5]
      = .ok (putBucket [(SiacoinOutputs, [])] SiacoinOutputs (aput [] [4] [5])) :=
  ⟨(insertItem_duplicate_check.1 [(BlockMap, [([1], [2])])] BlockMap [1] [3]
      [([1], [2])] (by decide)).1 [2] (by decide),
   ((insertItem_duplicate_check.2 [(SiacoinOutputs, [])] [4] [5] []
      (by decide)).2 (by decide)).1⟩

/-- Go `prefix_dsco`, the byte string "dsco_" naming per-height
delayed-siacoin-output buckets. -/
def pre_dsco : Bytes := strBytes "dsco_"

/-- Go `prefix_fcex`, the byte string "fcex_" naming per-height
file-contract-expiration buckets. -/
def pre_fcex : Bytes := strBytes "fcex_"

/-- `(db *setDB) rmItem` (`database.go:221-238`): debug-checks that the
bucket and the item exist, then deletes the key. -/
def rmItem (db : DB) (bucket k : Bytes) : MutRes :=
  match getBucket db bucket with
  | none => .panicked .nilBucket db
  | some b =>
    if build_DEBUG && (alookup b k).isNone then .panicked .nilItem db
    else .ok (putBucket db bucket (adel b k))

/-- `rmDelayedSiacoinOutputs` (`database.go:664-685`): one transaction
requires the per-height bucket `dsco_<h>` to exist and be empty and then
deletes it — on error the transaction rolls back and debug mode panics —
after which the height's entry is removed from the `DSCOBuckets` index
via `rmItem` (the index key is `encoding.Marshal(h)`). -/
def rmDelayedSiacoinOutputs (db : DB) (h : Nat) : MutRes :=
  let bucketID := pre_dsco ++ encUint64 h
  match update db (fun d =>
    match getBucket d bucketID with
    | none => .error .nilBucket
    | some b =>
      if b.length ≠ 0 then .error .nonEmptyBucket
      else deleteBucket d bucketID) with
  | (some e, d) =>
    if build_DEBUG then .panicked e d else rmItem d DSCOBuckets (encUint64 h)
  | (none, d) => rmItem d DSCOBuckets (encUint64 h)

/-- `rmFCExpirations` (`database.go:814-833`): identical shape for the
`fcex_<h>` buckets and the `FileContractExpirations` index. -/
def rmFCExpirations (db : DB) (h : Nat) : MutRes :=
  let bucketID := pre_fcex ++ encUint64 h
  match update db (fun d =>
    match getBucket d bucketID with
    | none => .error .nilBucket
    | some b =>
      if b.length ≠ 0 then .error .nonEmptyBucket
      else deleteBucket d bucketID) with
  | (some e, d) =>
    if build_DEBUG then .panicked e d else rmItem d FileContractExpirations (encUint64 h)
  | (none, d) => rmItem d FileContractExpirations (encUint64 h)

theorem dsco_child_ne_index (x : Bytes) : pre_dsco ++ x ≠ DSCOBuckets := by
  have h1 : pre_dsco = 100 :: strBytes "sco_" := by decide
  have h2 : DSCOBuckets = 68 :: strBytes "SCOBuckets" := by decide
  rw [h1, h2]
  intro hc
  simp [List.cons_append] at hc

theorem fcex_child_ne_index (x : Bytes) :
    pre_fcex ++ x ≠ FileContractExpirations := by
  have h1 : pre_fcex = 102 :: strBytes "cex_" := by decide
  have h2 : FileContractExpirations = 70 :: strBytes "ileContractExpirations" := by decide
  rw [h1, h2]
  intro hc
  simp [List.cons_append] at hc

theorem rmDelayedSiacoinOutputs_spec (db : DB) (h : Nat) (b ib : Bucket)
    (hb : getBucket db (pre_dsco ++ encUint64 h) = some b)
    (hib : getBucket db DSCOBuckets = some ib) :
    (b ≠ [] → rmDelayedSiacoinOutputs db h = .panicked .nonEmptyBucket db) ∧
    (b = [] → ∀ w, alookup ib (encUint64 h) = some w →
      rmDelayedSiacoinOutputs db h
        = .ok (putBucket (adel db (pre_dsco ++ encUint64 h)) DSCOBuckets
            (adel ib (encUint64 h))) ∧
      getBucket (putBucket (adel db (pre_dsco ++ encUint64 h)) DSCOBuckets
            (adel ib (encUint64 h))) (pre_dsco ++ encUint64 h) = none ∧
      alookup ((getBucket (putBucket (adel db (pre_dsco ++ encUint64 h)) DSCOBuckets
            (adel ib (encUint64 h))) DSCOBuckets).getD []) (encUint64 h) = none) := by
  have hne := dsco_child_ne_index (encUint64 h)
  constructor
  · intro hbne
    unfold rmDelayedSiacoinOutputs update
    have hlen : b.length ≠ 0 := by
      intro hz
      exact hbne (List.length_eq_zero.mp hz)
    simp [hb, hlen, build_DEBUG]
  · intro hbe w hw
    subst hbe
    have hdel : deleteBucket db (pre_dsco ++ encUint64 h)
        = .ok (adel db (pre_dsco ++ encUint64 h)) := by
      unfold deleteBucket
      rw [hb]
    have hib' : getBucket (adel db (pre_dsco ++ encUint64 h)) DSCOBuckets = some ib := by
      unfold getBucket at hib ⊢
      rw [alookup_adel_ne _ _ _ hne, hib]
    refine ⟨?_, ?_, ?_⟩
    · unfold rmDelayedSiacoinOutputs update
      simp only [hb, List.length_nil, ne_eq, not_true_eq_false, if_neg, hdel,
        ite_false, if_false]
      unfold rmItem
      rw [hib']
      simp [hw, build_DEBUG]
    · unfold getBucket putBucket
      rw [alookup_aput_ne _ _ _ _ (fun hc => hne hc.symm)]
      exact alookup_adel_self db _
    · unfold getBucket putBucket
      rw [alookup_aput_self]
      exact alookup_adel_self ib _

theorem rmFCExpirations_spec (db : DB) (h : Nat) (b ib : Bucket)
    (hb : getBucket db (pre_fcex ++ encUint64 h) = some b)
    (hib : getBucket db FileContractExpirations = some ib) :
    (b ≠ [] → rmFCExpirations db h = .panicked .nonEmptyBucket db) ∧
    (b = [] → ∀ w, alookup ib (encUint64 h) = some w →
      rmFCExpirations db h
        = .ok (putBucket (adel db (pre_fcex ++ encUint64 h)) FileContractExpirations
            (adel ib (encUint64 h))) ∧
      getBucket (putBucket (adel db (pre_fcex ++ encUint64 h)) FileContractExpirations
            (adel ib (encUint64 h))) (pre_fcex ++ encUint64 h) = none ∧
      alookup ((getBucket (putBucket (adel db (pre_fcex ++ encUint64 h))
            FileContractExpirations (adel ib (encUint64 h)))
          FileContractExpirations).getD []) (encUint64 h) = none) := by
  have hne := fcex_child_ne_index (encUint64 h)
  constructor
  · intro hbne
    unfold rmFCExpirations update
    have hlen : b.length ≠ 0 := by
      intro hz
      exact hbne (List.length_eq_zero.mp hz)
    simp [hb, hlen, build_DEBUG]
  · intro hbe w hw
    subst hbe
    have hdel : deleteBucket db (pre_fcex ++ encUint64 h)
        = .ok (adel db (pre_fcex ++ encUint64 h)) := by
      unfold deleteBucket
      rw [hb]
    have hib' : getBucket (adel db (pre_fcex ++ encUint64 h))
        FileContractExpirations = some ib := by
      unfold getBucket at hib ⊢
      rw [alookup_adel_ne _ _ _ hne, hib]
    refine ⟨?_, ?_, ?_⟩
    · unfold rmFCExpirations update
      simp only [hb, List.length_nil, ne_eq, not_true_eq_false, if_neg, hdel,
        ite_false, if_false]
      unfold rmItem
      rw [hib']
      simp [hw, build_DEBUG]
    · unfold getBucket putBucket
      rw [alookup_aput_ne _ _ _ _ (fun hc => hne hc.symm)]
      exact alookup_adel_self db _
    · unfold getBucket putBucket
      rw [alookup_aput_self]
      exact alookup_adel_self ib _

/-- C8: deleting the per-height child bucket (`dsco_<h>` or `fcex_<h>`)
fails with the non-empty-bucket error — the transaction rolled back and
the bucket left in place — whenever it still contains an entry, and
succeeds, also removing the height's index entry, exactly when the bucket
is empty. -/
theorem childBucket_delete_requires_empty :
    (∀ (db : DB) (h : Nat) (b ib : Bucket),
      getBucket db (pre_dsco ++ encUint64 h) = some b →
      getBucket db DSCOBuckets = some ib →
      (b ≠ [] → rmDelayedSiacoinOutputs db h = .panicked .nonEmptyBucket db) ∧
      (b = [] → ∀ w, alookup ib (encUint64 h) = some w →
        rmDelayedSiacoinOutputs db h
          = .ok (putBucket (adel db (pre_dsco ++ encUint64 h)) DSCOBuckets
              (adel ib (encUint64 h))) ∧
        getBucket (putBucket (adel db (pre_dsco ++ encUint64 h)) DSCOBuckets
              (adel ib (encUint64 h))) (pre_dsco ++ encUint64 h) = none ∧
        alookup ((getBucket (putBucket (adel db (pre_dsco ++ encUint64 h)) DSCOBuckets
              (adel ib (encUint64 h))) DSCOBuckets).getD []) (encUint64 h) = none)) ∧
    (∀ (db : DB) (h : Nat) (b ib : Bucket),
      getBucket db (pre_fcex ++ encUint64 h) = some b →
      getBucket db FileContractExpirations = some ib →
      (b ≠ [] → rmFCExpirations db h = .panicked .nonEmptyBucket db) ∧
      (b = [] → ∀ w, alookup ib (encUint64 h) = some w →
        rmFCExpirations db h
          = .ok (putBucket (adel db (pre_fcex ++ encUint64 h)) FileContractExpirations
              (adel ib (encUint64 h))) ∧
        getBucket (putBucket (adel db (pre_fcex ++ encUint64 h)) FileContractExpirations
              (adel ib (encUint64 h))) (pre_fcex ++ encUint64 h) = none ∧
        alookup ((getBucket (putBucket (adel db (pre_fcex ++ encUint64 h))
              FileContractExpirations (adel ib (encUint64 h)))
            FileContractExpirations).getD []) (encUint64 h) = none)) :=
  ⟨rmDelayedSiacoinOutputs_spec, rmFCExpirations_spec⟩

/-- Witness for `childBucket_delete_requires_empty` on concrete stores:
a one-entry `dsco_0` bucket refuses deletion, an empty `fcex_0` bucket is
deleted together with its index entry. -/
theorem childBucket_delete_requires_empty_witness :
    rmDelayedSiacoinOutputs
        [(pre_dsco ++ encUint64 0, [([1], [2])]), (DSCOBuckets, [(encUint64 0, [9])])] 0
      = .panicked .nonEmptyBucket
          [(pre_dsco ++ encUint64 0, [([1], [2])]), (DSCOBuckets, [(encUint64 0, [9])])] ∧
    rmFCExpirations
        [(pre_fcex ++ encUint64 0, []), (FileContractExpirations, [(encUint64 0, [9])])] 0
      = .ok (putBucket
          (adel [(pre_fcex ++ encUint64 0, []),
                 (FileContractExpirations, [(encUint64 0, [9])])]
            (pre_fcex ++ encUint64 0))
          FileContractExpirations (adel [(encUint64 0, [9])] (encUint64 0))) :=
  ⟨(childBucket_delete_requires_empty.1
      [(pre_dsco ++ encUint64 0, [([1], [2])]), (DSCOBuckets, [(encUint64 0, [9])])]
      0 [([1], [2])] [(encUint64 0, [9])] (by decide) (by decide)).1 (by decide),
   ((childBucket_delete_requires_empty.2
      [(pre_fcex ++ encUint64 0, []), (FileContractExpirations, [(encUint64 0, [9])])]
      0 [] [(encUint64 0, [9])] (by decide) (by decide)).2 rfl [9] (by decide)).1⟩

/-- `getItem` (`database.go:168-179`) and its transaction-opening twin
`(db *setDB) getItem` (202-218): a missing bucket is a (debug) panic, a
missing item is returned to the caller as `errNilItem`. -/
def getItemTx (db : DB) (bucket k : Bytes) : GetRes :=
  match getBucket db bucket with
  | none => .panicked .nilBucket
  | some b =>
    match alookup b k with
    | none => .errored .nilItem
    | some v => .ok v

/-- `getSiafundOutput` (`database.go:398-409`): passes the `getItem`
error to the caller (decoding of found bytes is external to the model). -/
def getSiafundOutput (db : DB) (id : Bytes) : GetRes :=
  getItemTx db SiafundOutputs id

/-- `getFileContract` (`database.go:466-476`): same shape. -/
def getFileContract (db : DB) (id : Bytes) : GetRes :=
  getItemTx db FileContracts id

/-- `(db *setDB) getSiacoinOutputs` (`database.go:542-553`): calls
`db.getItem` and then panics on any error — the `panic(err)` there is not
gated on `build.DEBUG`, unlike the siafund and file-contract wrappers. -/
def getSiacoinOutputs (db : DB) (id : Bytes) : GetRes :=
  match getItemTx db SiacoinOutputs id with
  | .ok v => .ok v
  | .errored e => .panicked e
  | .panicked e => .panicked e

/-- C9 (divergence evidence): for an ID absent from the respective
bucket, the siafund and file-contract lookups return the not-found error
to the caller, but `getSiacoinOutputs` panics, aborting the process. -/
theorem lookup_notfound_behaviour (db : DB) (id : Bytes) (bsf bfc bsc : Bucket)
    (hsf : getBucket db SiafundOutputs = some bsf) (hsf0 : alookup bsf id = none)
    (hfc : getBucket db FileContracts = some bfc) (hfc0 : alookup bfc id = none)
    (hsc : getBucket db SiacoinOutputs = some bsc) (hsc0 : alookup bsc id = none) :
    getSiafundOutput db id = .errored .nilItem ∧
    getFileContract db id = .errored .nilItem ∧
    getSiacoinOutputs db id = .panicked .nilItem := by
  refine ⟨?_, ?_, ?_⟩
  · unfold getSiafundOutput getItemTx
    simp [hsf, hsf0]
  · unfold getFileContract getItemTx
    simp [hfc, hfc0]
  · unfold getSiacoinOutputs getItemTx
    simp [hsc, hsc0]

/-- Witness for `lookup_notfound_behaviour` on a store with the three
buckets empty. -/
theorem lookup_notfound_behaviour_witness :
    getSiafundOutput [(SiafundOutputs, []), (FileContracts, []), (SiacoinOutputs, [])] [0]
      = .errored .nilItem ∧
    getFileContract [(SiafundOutputs, []), (FileContracts, []), (SiacoinOutputs, [])] [0]
      = .errored .nilItem ∧
    getSiacoinOutputs [(SiafundOutputs, []), (FileContracts, []), (SiacoinOutputs, [])] [0]
      = .panicked .nilItem :=
  lookup_notfound_behaviour
    [(SiafundOutputs, []), (FileContracts, []), (SiacoinOutputs, [])] [0]
    [] [] [] (by decide) rfl (by decide) rfl (by decide) rfl

end SiaDB

namespace SiaConsensus

/-!
Block acceptance (`consensus/blocks_test.go`).  The `AcceptBlock`
implementation itself is not under `src/` — only its tests are — so the
acceptance pipeline below is modelled from the spec (§4.3, §4.6, §7) and
checked against the behaviour the tests pin down.
-/

/-- A miner-payout output (`Output` in `blocks_test.go`): a currency
value and the spend-conditions hash. -/
structure Output where
  value : Nat
  spendHash : Nat
deriving Repr, DecidableEq

/-- A transaction, reduced to the field block-level acceptance reads:
its miner fees (`Transaction.MinerFees`). -/
structure Transaction where
  minerFees : List Nat
deriving Repr, DecidableEq

/-- Modelled from the spec: a block.  `bid` stands for the header hash
`ID(b)` — hashing is external to the model, so the id is carried as
data. -/
structure Block where
  bid : Nat
  parentID : Nat
  minerPayouts : List Output
  transactions : List Transaction
deriving Repr, DecidableEq

/-- A processed block (spec §4.3 step 4): the block plus height and
cumulative work.  Difficulty is constant in this model, so each block
contributes one unit of work. -/
structure PBlock where
  block : Block
  height : Nat
  work : Nat
deriving Repr, DecidableEq

/-- Modelled from the spec: the consensus state `AcceptBlock` mutates
(`State` in `blocks_test.go`): bad blocks, the block map, the orphan
index `missingParents`, the canonical path, the spendable outputs —
miner payout `i` of block `b` has id `(b.bid, i)` — and the current
tip. -/
structure CState where
  badBlocks : List Nat
  blockMap : List (Nat × PBlock)
  missingParents : List (Nat × List Block)
  currentPath : List Nat
  unspentOutputs : List ((Nat × Nat) × Output)
  currentBlockID : Nat
deriving Repr, DecidableEq

/-- The `AcceptBlock` error kinds these claims exercise (spec §7). -/
inductive AErr where
  | blockKnown
  | badBlock
  | unknownOrphan
  | knownOrphan
  | minerPayout
deriving Repr, DecidableEq

/-- Sum of the block's miner-payout values. -/
def payoutSum (b : Block) : Nat := (b.minerPayouts.map Output.value).sum

/-- Sum of all miner fees over the block's transactions. -/
def feeSum (b : Block) : Nat := (b.transactions.map (fun t => t.minerFees.sum)).sum

/-- The miner-payout outputs of an applied block, keyed by
`MinerPayoutID(b, i) = (ID(b), i)`. -/
def payoutOutputs (b : Block) : List ((Nat × Nat) × Output) :=
  b.minerPayouts.enum.map (fun p => ((b.bid, p.1), p.2))

/-- Cumulative work of the current tip. -/
def tipWork (s : CState) : Nat :=
  match SiaDB.alookup s.blockMap s.currentBlockID with
  | some pb => pb.work
  | none => 0

/-- Modelled from the spec (§4.3 steps 4-5, §4.6): store the validated
block in the block map and, when it extends the current tip with more
cumulative work, apply it — extend the path, credit the miner payouts to
the unspent-output set, move the tip.  (Reorganisation onto a heavier
non-extending fork is outside the scenarios these claims exercise.) -/
def connect (s : CState) (b : Block) (parent : PBlock) : CState :=
  let pb : PBlock := ⟨b, parent.height + 1, parent.work + 1⟩
  let s1 := { s with blockMap := (b.bid, pb) :: s.blockMap }
  if b.parentID = s.currentBlockID ∧ tipWork s < pb.work then
    { s1 with
        currentPath := s1.currentPath ++ [b.bid],
        currentBlockID := b.bid,
        unspentOutputs := s1.unspentOutputs ++ payoutOutputs b }
  else s1

/-- Modelled from the spec (§4.3 step 6): process a worklist of blocks
whose parents have just become known — validate each against the
miner-payout rule (recording failures in the bad-block set, §7),
connect it, and enqueue the orphans that were waiting for it.  Fuel
bounds the recursion; the theorems always run with enough fuel. -/
def processBlocks (cb : Nat → Nat) : Nat → CState → List Block → CState
  | 0, s, _ => s
  | _ + 1, s, [] => s
  | fuel + 1, s, b :: rest =>
    match SiaDB.alookup s.blockMap b.parentID with
    | none => processBlocks cb fuel s rest
    | some parent =>
      if payoutSum b = cb (parent.height + 1) + feeSum b then
        let s1 := connect s b parent
        let orphans := (SiaDB.alookup s1.missingParents b.bid).getD []
        let s2 := { s1 with missingParents := SiaDB.adel s1.missingParents b.bid }
        processBlocks cb fuel s2 (orphans ++ rest)
      else
        processBlocks cb fuel { s with badBlocks := b.bid :: s.badBlocks } rest

/-- Modelled from the spec: `AcceptBlock` (§4.3; the implementation is
not under `src/`, only `blocks_test.go` is).  Step 1 rejects bad and
known blocks; step 2 enrolls a block with an unknown parent under
`missingParents[parent]`, failing with `UnknownOrphan` the first time
and `KnownOrphan` on re-submission; steps 3-7 validate the miner-payout
rule — the timestamp, size and proof-of-work checks read the wall clock,
the byte size and the hash, all external to this model — store the
processed block, apply it when it extends the tip with more work, and
drain the orphans waiting on it.  `cb` is the protocol subsidy function
`CalculateCoinbase`, kept abstract. -/
def acceptBlock (cb : Nat → Nat) (fuel : Nat) (s : CState) (b : Block) :
    Option AErr × CState :=
  if b.bid ∈ s.badBlocks then (some .badBlock, s)
  else if (SiaDB.alookup s.blockMap b.bid).isSome then (some .blockKnown, s)
  else
    match SiaDB.alookup s.blockMap b.parentID with
    | none =>
      match SiaDB.alookup s.missingParents b.parentID with
      | some orphans =>
        if b.bid ∈ orphans.map Block.bid then (some .knownOrphan, s)
        else (some .unknownOrphan,
          { s with missingParents :=
              SiaDB.aput s.missingParents b.parentID (b :: orphans) })
      | none =>
        (some .unknownOrphan,
          { s with missingParents := (b.parentID, [b]) :: s.missingParents })
    | some parent =>
      if payoutSum b = cb (parent.height + 1) + feeSum b then
        let s1 := connect s b parent
        let orphans := (SiaDB.alookup s1.missingParents b.bid).getD []
        let s2 := { s1 with missingParents := SiaDB.adel s1.missingParents b.bid }
        (none, processBlocks cb fuel s2 orphans)
      else
        (some .minerPayout, { s with badBlocks := b.bid :: s.badBlocks })

/-- Modelled from the spec: `CreateGenesisState` — the state holding only
the hard-coded genesis block, the tip at height 0. -/
def genesisBlock : Block := ⟨0, 0, [], []⟩

def createGenesisState : CState :=
  { badBlocks := []
    blockMap := [(0, ⟨genesisBlock, 0, 0⟩)]
    missingParents := []
    currentPath := [0]
    unspentOutputs := []
    currentBlockID := 0 }

theorem processBlocks_nil (cb : Nat → Nat) (fuel : Nat) (s : CState) :
    processBlocks cb fuel s [] = s := by
  cases fuel <;> rfl

theorem connect_missingParents (s : CState) (b : Block) (parent : PBlock) :
    (connect s b parent).missingParents = s.missingParents := by
  simp only [connect]
  split <;> rfl

theorem connect_applies (s : CState) (b : Block) (parent : PBlock)
    (htip : b.parentID = s.currentBlockID)
    (hpar : SiaDB.alookup s.blockMap b.parentID = some parent) :
    connect s b parent =
      { s with
          blockMap := (b.bid, ⟨b, parent.height + 1, parent.work + 1⟩) :: s.blockMap,
          currentPath := s.currentPath ++ [b.bid],
          currentBlockID := b.bid,
          unspentOutputs := s.unspentOutputs ++ payoutOutputs b } := by
  have hw : tipWork s < parent.work + 1 := by
    unfold tipWork
    rw [← htip, hpar]
    exact Nat.lt_succ_self _
  unfold connect
  rw [if_pos ⟨htip, hw⟩]

theorem alookup_enumFrom_payouts (bid : Nat) (l : List Output) (n i : Nat)
    (hi : i < l.length) :
    (SiaDB.alookup ((List.enumFrom n l).map (fun p => ((bid, p.1), p.2)))
      (bid, n + i)).isSome = true := by
  induction l generalizing n i with
  | nil => simp at hi
  | cons v t ih =>
    cases i with
    | zero => simp [List.enumFrom, SiaDB.alookup]
    | succ j =>
      have hj : j < t.length := by simpa using hi
      have hkey : (bid, n) ≠ (bid, n + (j + 1)) := by
        intro hc
        have h2 := (Prod.mk.injEq _ _ _ _).mp hc
        omega
      have harith : n + 1 + j = n + (j + 1) := by omega
      have hrec := ih (n + 1) j hj
      rw [harith] at hrec
      simp only [List.enumFrom, List.map_cons, SiaDB.alookup_cons]
      rw [if_neg hkey]
      exact hrec

theorem alookup_payoutOutputs_isSome (b : Block) (i : Nat)
    (hi : i < b.minerPayouts.length) :
    (SiaDB.alookup (payoutOutputs b) (b.bid, i)).isSome = true := by
  have := alookup_enumFrom_payouts b.bid b.minerPayouts 0 i hi
  simpa [payoutOutputs, List.enum] using this

/-- C4: for a submitted block at height `parent.height + 1` extending the
tip, acceptance succeeds exactly when the miner payouts sum to
`CalculateCoinbase(height) + Σ miner fees`: on success every
miner-payout id is a member of the unspent-output set, and on a
too-large or too-small sum the result is the `MinerPayout` error, the
block is recorded bad and the spendable set is untouched. -/
theorem minerPayout_rule (cb : Nat → Nat) (fuel : Nat) (s : CState) (b : Block)
    (parent : PBlock)
    (hbad : b.bid ∉ s.badBlocks)
    (hnew : SiaDB.alookup s.blockMap b.bid = none)
    (hpar : SiaDB.alookup s.blockMap b.parentID = some parent)
    (htip : b.parentID = s.currentBlockID)
    (hnoorph : SiaDB.alookup s.missingParents b.bid = none) :
    (payoutSum b = cb (parent.height + 1) + feeSum b →
      acceptBlock cb fuel s b =
        (none,
         { s with
             blockMap := (b.bid, ⟨b, parent.height + 1, parent.work + 1⟩) :: s.blockMap,
             missingParents := SiaDB.adel s.missingParents b.bid,
             currentPath := s.currentPath ++ [b.bid],
             currentBlockID := b.bid,
             unspentOutputs := s.unspentOutputs ++ payoutOutputs b }) ∧
      (∀ i, i < b.minerPayouts.length →
        (SiaDB.alookup (acceptBlock cb fuel s b).2.unspentOutputs (b.bid, i)).isSome
          = true)) ∧
    (payoutSum b ≠ cb (parent.height + 1) + feeSum b →
      acceptBlock cb fuel s b
        = (some AErr.minerPayout, { s with badBlocks := b.bid :: s.badBlocks })) := by
  have hnew' : (SiaDB.alookup s.blockMap b.bid).isSome = false := by
    rw [hnew]
    rfl
  constructor
  · intro hpay
    have heq : acceptBlock cb fuel s b =
        (none,
         { s with
             blockMap := (b.bid, ⟨b, parent.height + 1, parent.work + 1⟩) :: s.blockMap,
             missingParents := SiaDB.adel s.missingParents b.bid,
             currentPath := s.currentPath ++ [b.bid],
             currentBlockID := b.bid,
             unspentOutputs := s.unspentOutputs ++ payoutOutputs b }) := by
      unfold acceptBlock
      rw [if_neg hbad]
      rw [if_neg (by simp [hnew'])]
      simp only [hpar]
      rw [if_pos hpay]
      rw [connect_applies s b parent htip hpar]
      simp only [hnoorph, Option.getD_none, processBlocks_nil]
    refine ⟨heq, ?_⟩
    intro i hi
    rw [heq]
    show (SiaDB.alookup (s.unspentOutputs ++ payoutOutputs b) (b.bid, i)).isSome = true
    rw [SiaDB.alookup_append]
    cases hs : SiaDB.alookup s.unspentOutputs (b.bid, i) with
    | some v => rfl
    | none => exact alookup_payoutOutputs_isSome b i hi
  · intro hpay
    unfold acceptBlock
    rw [if_neg hbad]
    rw [if_neg (by simp [hnew'])]
    simp only [hpar]
    rw [if_neg hpay]

/-- Witness for `minerPayout_rule`: from genesis with zero subsidy, an
empty-payout block is accepted and a nonzero payout is rejected. -/
theorem minerPayout_rule_witness :
    (SiaDB.alookup
        (acceptBlock (fun _ => 0) 1 createGenesisState
          ⟨1, 0, [⟨0, 0⟩], []⟩).2.unspentOutputs (1, 0)).isSome = true ∧
    acceptBlock (fun _ => 0) 1 createGenesisState ⟨2, 0, [⟨5, 0⟩], []⟩
      = (some AErr.minerPayout, { createGenesisState with badBlocks := [2] }) :=
  ⟨((minerPayout_rule (fun _ => 0) 1 createGenesisState ⟨1, 0, [⟨0, 0⟩], []⟩
      ⟨genesisBlock, 0, 0⟩ (by decide) (by decide) (by decide) rfl
      (by decide)).1 (by decide)).2 0 (by decide),
   (minerPayout_rule (fun _ => 0) 1 createGenesisState ⟨2, 0, [⟨5, 0⟩], []⟩
      ⟨genesisBlock, 0, 0⟩ (by decide) (by decide) (by decide) rfl
      (by decide)).2 (by decide)⟩

theorem connect_blockMap (s : CState) (b : Block) (parent : PBlock) :
    (connect s b parent).blockMap
      = (b.bid, ⟨b, parent.height + 1, parent.work + 1⟩) :: s.blockMap := by
  simp only [connect]
  split <;> rfl

theorem connect_badBlocks (s : CState) (b : Block) (parent : PBlock) :
    (connect s b parent).badBlocks = s.badBlocks := by
  simp only [connect]
  split <;> rfl

/-- Step-1 rejection of a known block. -/
theorem acceptBlock_known (cb : Nat → Nat) (fuel : Nat) (s : CState) (b : Block)
    (hbad : b.bid ∉ s.badBlocks)
    (hknown : (SiaDB.alookup s.blockMap b.bid).isSome = true) :
    acceptBlock cb fuel s b = (some AErr.blockKnown, s) := by
  unfold acceptBlock
  rw [if_neg hbad, if_pos hknown]

/-- Step-2 enrollment of a fresh orphan under a fresh parent key. -/
theorem acceptBlock_orphan_new (cb : Nat → Nat) (fuel : Nat) (s : CState) (b : Block)
    (hbad : b.bid ∉ s.badBlocks)
    (hnew : SiaDB.alookup s.blockMap b.bid = none)
    (hpar : SiaDB.alookup s.blockMap b.parentID = none)
    (hmp : SiaDB.alookup s.missingParents b.parentID = none) :
    acceptBlock cb fuel s b =
      (some AErr.unknownOrphan,
       { s with missingParents := (b.parentID, [b]) :: s.missingParents }) := by
  unfold acceptBlock
  rw [if_neg hbad, if_neg (by simp [hnew])]
  simp only [hpar, hmp]

/-- Step-2 rejection of an already-enrolled orphan. -/
theorem acceptBlock_orphan_known (cb : Nat → Nat) (fuel : Nat) (s : CState) (b : Block)
    (orphans : List Block)
    (hbad : b.bid ∉ s.badBlocks)
    (hnew : SiaDB.alookup s.blockMap b.bid = none)
    (hpar : SiaDB.alookup s.blockMap b.parentID = none)
    (hmp : SiaDB.alookup s.missingParents b.parentID = some orphans)
    (hin : b.bid ∈ orphans.map Block.bid) :
    acceptBlock cb fuel s b = (some AErr.knownOrphan, s) := by
  unfold acceptBlock
  rw [if_neg hbad, if_neg (by simp [hnew])]
  simp only [hpar, hmp]
  rw [if_pos hin]

/-- Step-2 enrollment of a fresh orphan joining an existing set. -/
theorem acceptBlock_orphan_enroll (cb : Nat → Nat) (fuel : Nat) (s : CState) (b : Block)
    (orphans : List Block)
    (hbad : b.bid ∉ s.badBlocks)
    (hnew : SiaDB.alookup s.blockMap b.bid = none)
    (hpar : SiaDB.alookup s.blockMap b.parentID = none)
    (hmp : SiaDB.alookup s.missingParents b.parentID = some orphans)
    (hnin : b.bid ∉ orphans.map Block.bid) :
    acceptBlock cb fuel s b =
      (some AErr.unknownOrphan,
       { s with missingParents :=
           SiaDB.aput s.missingParents b.parentID (b :: orphans) }) := by
  unfold acceptBlock
  rw [if_neg hbad, if_neg (by simp [hnew])]
  simp only [hpar, hmp]
  rw [if_neg hnin]

/-- Steps 3-7 for a block whose parent is known and whose payouts check
out: connect, then drain the waiting orphans. -/
theorem acceptBlock_connects (cb : Nat → Nat) (fuel : Nat) (s : CState) (b : Block)
    (parent : PBlock)
    (hbad : b.bid ∉ s.badBlocks)
    (hnew : SiaDB.alookup s.blockMap b.bid = none)
    (hpar : SiaDB.alookup s.blockMap b.parentID = some parent)
    (hpay : payoutSum b = cb (parent.height + 1) + feeSum b) :
    acceptBlock cb fuel s b =
      (none, processBlocks cb fuel
        { connect s b parent with
            missingParents := SiaDB.adel (connect s b parent).missingParents b.bid }
        ((SiaDB.alookup (connect s b parent).missingParents b.bid).getD [])) := by
  unfold acceptBlock
  rw [if_neg hbad, if_neg (by simp [hnew])]
  simp only [hpar]
  rw [if_pos hpay]

/-- One drain step for a queued block whose parent is known and whose
payouts check out. -/
theorem processBlocks_cons_connects (cb : Nat → Nat) (fuel : Nat) (s : CState)
    (b : Block) (rest : List Block) (parent : PBlock)
    (hpar : SiaDB.alookup s.blockMap b.parentID = some parent)
    (hpay : payoutSum b = cb (parent.height + 1) + feeSum b) :
    processBlocks cb (fuel + 1) s (b :: rest)
      = processBlocks cb fuel
          { connect s b parent with
              missingParents := SiaDB.adel (connect s b parent).missingParents b.bid }
          (((SiaDB.alookup (connect s b parent).missingParents b.bid).getD []) ++ rest) := by
  simp only [processBlocks, hpar]
  rw [if_pos hpay]

/-- C6: acceptance is idempotent — a block accepted once is rejected on
re-submission with `BlockKnown`, leaving every state component (bad
blocks, block map, orphan index, path, unspent outputs, tip) exactly the
state produced by the first submission. -/
theorem acceptBlock_idempotent (cb : Nat → Nat) (fuel fuel' : Nat) (s s' : CState)
    (b : Block)
    (hnoorph : SiaDB.alookup s.missingParents b.bid = none)
    (h : acceptBlock cb fuel s b = (none, s')) :
    acceptBlock cb fuel' s' b = (some AErr.blockKnown, s') := by
  by_cases hbad : b.bid ∈ s.badBlocks
  · unfold acceptBlock at h
    rw [if_pos hbad] at h
    simp at h
  by_cases hknown : (SiaDB.alookup s.blockMap b.bid).isSome = true
  · unfold acceptBlock at h
    rw [if_neg hbad, if_pos hknown] at h
    simp at h
  cases hp : SiaDB.alookup s.blockMap b.parentID with
  | none =>
    unfold acceptBlock at h
    rw [if_neg hbad, if_neg hknown] at h
    simp only [hp] at h
    cases horph : SiaDB.alookup s.missingParents b.parentID with
    | some orphans =>
      simp only [horph] at h
      by_cases hin : b.bid ∈ orphans.map Block.bid
      · rw [if_pos hin] at h
        simp at h
      · rw [if_neg hin] at h
        simp at h
    | none =>
      simp only [horph] at h
      simp at h
  | some parent =>
    by_cases hc : payoutSum b = cb (parent.height + 1) + feeSum b
    · rw [acceptBlock_connects cb fuel s b parent hbad
        (by cases hx : SiaDB.alookup s.blockMap b.bid with
            | none => rfl
            | some v => rw [hx] at hknown; simp at hknown) hp hc] at h
      rw [connect_missingParents, hnoorph] at h
      simp only [Option.getD_none, processBlocks_nil] at h
      injection h with h1 h2
      subst h2
      refine acceptBlock_known cb fuel' _ b ?_ ?_
      · show b.bid ∉ (connect s b parent).badBlocks
        rw [connect_badBlocks]
        exact hbad
      · show (SiaDB.alookup (connect s b parent).blockMap b.bid).isSome = true
        rw [connect_blockMap]
        simp [SiaDB.alookup]
    · unfold acceptBlock at h
      rw [if_neg hbad, if_neg hknown] at h
      simp only [hp] at h
      rw [if_neg hc] at h
      simp at h

/-- Witness for `acceptBlock_idempotent`: the genesis child accepted once
is `BlockKnown` the second time, state untouched. -/
theorem acceptBlock_idempotent_witness :
    acceptBlock (fun _ => 0) 1
      ⟨[], [(1, ⟨⟨1, 0, [], []⟩, 1, 1⟩), (0, ⟨genesisBlock, 0, 0⟩)], [], [0, 1], [], 1⟩
      ⟨1, 0, [], []⟩
      = (some AErr.blockKnown,
         ⟨[], [(1, ⟨⟨1, 0, [], []⟩, 1, 1⟩), (0, ⟨genesisBlock, 0, 0⟩)], [], [0, 1], [], 1⟩) :=
  acceptBlock_idempotent (fun _ => 0) 1 1 createGenesisState
    ⟨[], [(1, ⟨⟨1, 0, [], []⟩, 1, 1⟩), (0, ⟨genesisBlock, 0, 0⟩)], [], [0, 1], [], 1⟩
    ⟨1, 0, [], []⟩ rfl (by decide)

/-- Accepting the parent of a single enrolled orphan connects both and
advances the tip to the orphan. -/
theorem accept_parent_drains (cb : Nat → Nat) (f : Nat) (s' : CState)
    (tipPb : PBlock) (P C : Block)
    (htp : SiaDB.alookup s'.blockMap s'.currentBlockID = some tipPb)
    (hPpar : P.parentID = s'.currentBlockID)
    (hCpar : C.parentID = P.bid)
    (hPnew : SiaDB.alookup s'.blockMap P.bid = none)
    (hPbad : P.bid ∉ s'.badBlocks)
    (hPC : P.bid ≠ C.bid)
    (hmpP : SiaDB.alookup s'.missingParents P.bid = some [C])
    (hmpC : SiaDB.alookup s'.missingParents C.bid = none)
    (hPpay : payoutSum P = cb (tipPb.height + 1) + feeSum P)
    (hCpay : payoutSum C = cb (tipPb.height + 2) + feeSum C) :
    ∃ s5, acceptBlock cb (f + 1) s' P = (none, s5) ∧
      (SiaDB.alookup s5.blockMap P.bid).isSome = true ∧
      (SiaDB.alookup s5.blockMap C.bid).isSome = true ∧
      s5.currentBlockID = C.bid ∧
      SiaDB.alookup s5.missingParents P.bid = none ∧
      SiaDB.alookup s5.missingParents C.bid = none := by
  have hPparSome : SiaDB.alookup s'.blockMap P.parentID = some tipPb := by
    rw [hPpar]
    exact htp
  refine ⟨{ badBlocks := s'.badBlocks,
            blockMap := (C.bid, ⟨C, tipPb.height + 1 + 1, tipPb.work + 1 + 1⟩)
              :: (P.bid, ⟨P, tipPb.height + 1, tipPb.work + 1⟩) :: s'.blockMap,
            missingParents := SiaDB.adel (SiaDB.adel s'.missingParents P.bid) C.bid,
            currentPath := (s'.currentPath ++ [P.bid]) ++ [C.bid],
            unspentOutputs := (s'.unspentOutputs ++ payoutOutputs P) ++ payoutOutputs C,
            currentBlockID := C.bid }, ?_, ?_, ?_, rfl, ?_, ?_⟩
  · rw [acceptBlock_connects cb (f + 1) s' P tipPb hPbad hPnew hPparSome hPpay,
      connect_applies s' P tipPb hPpar hPparSome]
    simp only [hmpP, Option.getD_some]
    rw [processBlocks_cons_connects cb f
        { badBlocks := s'.badBlocks,
          blockMap := (P.bid, ⟨P, tipPb.height + 1, tipPb.work + 1⟩) :: s'.blockMap,
          missingParents := SiaDB.adel s'.missingParents P.bid,
          currentPath := s'.currentPath ++ [P.bid],
          unspentOutputs := s'.unspentOutputs ++ payoutOutputs P,
          currentBlockID := P.bid }
        C [] ⟨P, tipPb.height + 1, tipPb.work + 1⟩
        (by rw [hCpar]; simp [SiaDB.alookup])
        hCpay]
    rw [connect_applies
        { badBlocks := s'.badBlocks,
          blockMap := (P.bid, ⟨P, tipPb.height + 1, tipPb.work + 1⟩) :: s'.blockMap,
          missingParents := SiaDB.adel s'.missingParents P.bid,
          currentPath := s'.currentPath ++ [P.bid],
          unspentOutputs := s'.unspentOutputs ++ payoutOutputs P,
          currentBlockID := P.bid }
        C ⟨P, tipPb.height + 1, tipPb.work + 1⟩ hCpar
        (by rw [hCpar]; simp [SiaDB.alookup])]
    have hmpC2 : SiaDB.alookup (SiaDB.adel s'.missingParents P.bid) C.bid = none := by
      rw [SiaDB.alookup_adel_ne _ _ _ hPC]
      exact hmpC
    simp only [hmpC2, Option.getD_none, List.nil_append, processBlocks_nil]
  · rw [show SiaDB.alookup
        ((C.bid, (⟨C, tipPb.height + 1 + 1, tipPb.work + 1 + 1⟩ : PBlock))
          :: (P.bid, ⟨P, tipPb.height + 1, tipPb.work + 1⟩) :: s'.blockMap) P.bid
        = some ⟨P, tipPb.height + 1, tipPb.work + 1⟩ from by
      simp [SiaDB.alookup, Ne.symm hPC]]
    rfl
  · rw [show SiaDB.alookup
        ((C.bid, (⟨C, tipPb.height + 1 + 1, tipPb.work + 1 + 1⟩ : PBlock))
          :: (P.bid, ⟨P, tipPb.height + 1, tipPb.work + 1⟩) :: s'.blockMap) C.bid
        = some ⟨C, tipPb.height + 1 + 1, tipPb.work + 1 + 1⟩ from by
      simp [SiaDB.alookup]]
    rfl
  · rw [SiaDB.alookup_adel_ne _ _ _ (Ne.symm hPC)]
    exact SiaDB.alookup_adel_self _ _
  · exact SiaDB.alookup_adel_self _ _

/-- C5: a block with an unknown parent is enrolled under
`missingParents[parent]` and rejected with `UnknownOrphan` the first time
and `KnownOrphan` on re-submission, the consensus state (block map, path,
outputs, tip) untouched; once the parent is accepted the orphan is
drained into the block map, no `missingParents` entry keyed by a
now-known id remains, and the tip advances to the reconnected
descendant. -/
theorem orphan_handling :
    (∀ (cb : Nat → Nat) (fuel : Nat) (s : CState) (b : Block),
        b.bid ∉ s.badBlocks →
        SiaDB.alookup s.blockMap b.bid = none →
        SiaDB.alookup s.blockMap b.parentID = none →
        SiaDB.alookup s.missingParents b.parentID = none →
        acceptBlock cb fuel s b =
          (some AErr.unknownOrphan,
           { s with missingParents := (b.parentID, [b]) :: s.missingParents })) ∧
    (∀ (cb : Nat → Nat) (fuel : Nat) (s : CState) (b : Block) (orphans : List Block),
        b.bid ∉ s.badBlocks →
        SiaDB.alookup s.blockMap b.bid = none →
        SiaDB.alookup s.blockMap b.parentID = none →
        SiaDB.alookup s.missingParents b.parentID = some orphans →
        (b.bid ∈ orphans.map Block.bid →
          acceptBlock cb fuel s b = (some AErr.knownOrphan, s)) ∧
        (b.bid ∉ orphans.map Block.bid →
          acceptBlock cb fuel s b =
            (some AErr.unknownOrphan,
             { s with missingParents :=
                 SiaDB.aput s.missingParents b.parentID (b :: orphans) }))) ∧
    (∀ (cb : Nat → Nat) (f1 f2 : Nat) (s : CState) (b : Block),
        b.bid ∉ s.badBlocks →
        SiaDB.alookup s.blockMap b.bid = none →
        SiaDB.alookup s.blockMap b.parentID = none →
        SiaDB.alookup s.missingParents b.parentID = none →
        acceptBlock cb f2 (acceptBlock cb f1 s b).2 b
          = (some AErr.knownOrphan, (acceptBlock cb f1 s b).2)) ∧
    (∀ (cb : Nat → Nat) (f1 f2 f3 : Nat) (s : CState) (tipPb : PBlock) (P C : Block),
        SiaDB.alookup s.blockMap s.currentBlockID = some tipPb →
        P.parentID = s.currentBlockID →
        C.parentID = P.bid →
        SiaDB.alookup s.blockMap P.bid = none →
        SiaDB.alookup s.blockMap C.bid = none →
        P.bid ∉ s.badBlocks → C.bid ∉ s.badBlocks →
        P.bid ≠ C.bid →
        SiaDB.alookup s.missingParents P.bid = none →
        SiaDB.alookup s.missingParents C.bid = none →
        payoutSum P = cb (tipPb.height + 1) + feeSum P →
        payoutSum C = cb (tipPb.height + 2) + feeSum C →
        acceptBlock cb f1 s C
          = (some AErr.unknownOrphan,
             { s with missingParents := (P.bid, [C]) :: s.missingParents }) ∧
        acceptBlock cb f2 { s with missingParents := (P.bid, [C]) :: s.missingParents } C
          = (some AErr.knownOrphan,
             { s with missingParents := (P.bid, [C]) :: s.missingParents }) ∧
        ∃ s5, acceptBlock cb (f3 + 1)
            { s with missingParents := (P.bid, [C]) :: s.missingParents } P
            = (none, s5) ∧
          (SiaDB.alookup s5.blockMap P.bid).isSome = true ∧
          (SiaDB.alookup s5.blockMap C.bid).isSome = true ∧
          s5.currentBlockID = C.bid ∧
          SiaDB.alookup s5.missingParents P.bid = none ∧
          SiaDB.alookup s5.missingParents C.bid = none) := by
  refine ⟨acceptBlock_orphan_new, ?_, ?_, ?_⟩
  · intro cb fuel s b orphans hbad hnew hpar hmp
    exact ⟨fun hin => acceptBlock_orphan_known cb fuel s b orphans hbad hnew hpar hmp hin,
           fun hnin => acceptBlock_orphan_enroll cb fuel s b orphans hbad hnew hpar hmp hnin⟩
  · intro cb f1 f2 s b hbad hnew hpar hmp
    rw [acceptBlock_orphan_new cb f1 s b hbad hnew hpar hmp]
    exact acceptBlock_orphan_known cb f2 _ b [b] hbad hnew hpar
      (by simp [SiaDB.alookup]) (by simp)
  · intro cb f1 f2 f3 s tipPb P C htp hPpar hCpar hPnew hCnew hPbad hCbad hPC
      hmpP hmpC hPpay hCpay
    have h1 := acceptBlock_orphan_new cb f1 s C hCbad hCnew
      (by rw [hCpar]; exact hPnew) (by rw [hCpar]; exact hmpP)
    rw [hCpar] at h1
    refine ⟨h1, ?_, ?_⟩
    · exact acceptBlock_orphan_known cb f2 _ C [C] hCbad hCnew
        (by rw [hCpar]; exact hPnew)
        (by show SiaDB.alookup ((P.bid, [C]) :: s.missingParents) C.parentID = some [C]
            rw [hCpar]
            simp [SiaDB.alookup])
        (by simp)
    · exact accept_parent_drains cb f3 _ tipPb P C htp hPpar hCpar hPnew hPbad hPC
        (by show SiaDB.alookup ((P.bid, [C]) :: s.missingParents) P.bid = some [C]
            simp [SiaDB.alookup])
        (by show SiaDB.alookup ((P.bid, [C]) :: s.missingParents) C.bid = none
            simpa [SiaDB.alookup, hPC] using hmpC)
        hPpay hCpay

/-- Witness for `orphan_handling`: from genesis, the child of an unmined
parent is enrolled as an unknown orphan. -/
theorem orphan_handling_witness :
    acceptBlock (fun _ => 0) 0 createGenesisState ⟨2, 1, [], []⟩
      = (some AErr.unknownOrphan,
         { createGenesisState with
             missingParents := (1, [⟨2, 1, [], []⟩]) :: createGenesisState.missingParents }) :=
  (orphan_handling.2.2.2 (fun _ => 0) 0 0 0 createGenesisState ⟨genesisBlock, 0, 0⟩
    ⟨1, 0, [], []⟩ ⟨2, 1, [], []⟩ rfl rfl rfl (by decide) (by decide) (by decide)
    (by decide) (by decide) rfl rfl (by decide) (by decide)).1

end SiaConsensus
